import Mathlib

/-!
Verification of the go-cache multi-tier cache (package `internal/cache`).

The embedding translates the Go source into pure Lean functions:

* `CacheEntry`, `MemoryStore`, `DiskStore`, `RemoteStore` mirror the structs
  in `cache.go`, `memory_store.go`, `disk_store.go`, `remote_store.go`.
* Go maps (`map[string]*CacheEntry`, `map[string][]byte`) and the disk
  directory are modelled as association lists with the map representation
  invariant (unique keys).  Go map iteration order is unspecified; the list
  order is a canonical choice, which only matters for tie-breaking in the
  eviction policy.
* `time.Time` is an integer instant (`Int`); each coordinator operation
  receives the instant `now` at which it runs, standing for the values
  `time.Now()` returns during that operation.
* Go errors are an inductive type with one constructor per `errors.New`
  allocation site, because `errors.Is` on non-wrapping errors compares the
  error values by identity, not by message.  In particular the package
  sentinel `ErrInsufficientCapacity` (memory_store.go:9) and the fresh
  `errors.New("insufficient capacity")` produced by `DiskStore.Set`
  (disk_store.go:56) are distinct error values with the same message.
* The remote store is embedded in its simulated mode
  (`SIMULATE_REMOTE_STORE=true`), which is the mode the repository's own
  tests and sample program exercise; the live mode proxies a Redis server
  over the network and is outside a pure embedding.
* `DiskStore.Delete` credits `usage` with the on-disk file length
  (`info.Size()`), i.e. the length of the gob encoding of the stored entry.
  The encoding lives in Go's standard library, so its length is kept as an
  explicit parameter `gobLen` of the operations that consult it.
* The Go `evict` loop is unbounded; the embedding runs it on explicit fuel.
  Call sites pass (number of resident entries + 1), which is exact for the
  live call sites (evicting from the memory tier) because every iteration
  either returns or deletes one resident entry.
-/

set_option linter.unusedVariables false

namespace GoCache

/-- Go error values reaching the coordinator, one constructor per
`errors.New` allocation site (`errors.Is` compares by identity). -/
inductive StoreErr where
  /-- The package sentinel `ErrInsufficientCapacity` (memory_store.go:9). -/
  | errInsufficientCapacity
  /-- The fresh `errors.New("insufficient capacity")` returned by
  `DiskStore.Set` (disk_store.go:56); same message as the sentinel but a
  distinct Go error value. -/
  | diskInsufficientCapacity
  /-- A not-found error (`errors.New("key not found")`, `redis.Nil`, or a
  failed `os.Open`). -/
  | notFound
  /-- Any other tier error (filesystem, encoding, remote). -/
  | other (msg : String)
deriving DecidableEq, Repr

/-- `errors.Is(err, ErrInsufficientCapacity)` as used at cache.go:118 and
cache.go:135.  None of the modelled errors wraps another, so `errors.Is`
reduces to identity with the sentinel. -/
def errorsIsCapacity : StoreErr → Bool
  | StoreErr.errInsufficientCapacity => true
  | _ => false

/-- `CacheEntry` (cache.go:10-16).  `value` is the byte payload, `size` its
charged size in bytes, `lastAccess` a `time.Time` instant, `frequency` the
access counter. -/
structure CacheEntry where
  key : String
  value : List Nat
  size : Int
  lastAccess : Int
  frequency : Int
deriving DecidableEq, Repr

/-- The three tiers owned by the coordinator. -/
inductive Tier where
  | memory
  | disk
  | remote
deriving DecidableEq, Repr

/-! ### Association-list operations modelling Go maps and the disk directory -/

/-- Lookup in an association list (first matching key). -/
def lookupKey {α : Type} : List (String × α) → String → Option α
  | [], _ => none
  | (k, v) :: t, key => if k = key then some v else lookupKey t key

/-- Go map assignment `m[key] = v`: replace the binding if present,
otherwise add it. -/
def putKey {α : Type} : List (String × α) → String → α → List (String × α)
  | [], key, v => [(key, v)]
  | (k, w) :: t, key, v =>
    if k = key then (key, v) :: t else (k, w) :: putKey t key v

/-- Go map deletion / file removal: remove every binding of the key (the
lists representing maps have at most one). -/
def removeKey {α : Type} : List (String × α) → String → List (String × α)
  | [], _ => []
  | (k, w) :: t, key =>
    if k = key then removeKey t key else (k, w) :: removeKey t key

/-! ### MemoryStore (memory_store.go) -/

/-- `MemoryStore` (memory_store.go:11-16): in-memory map plus capacity and
usage counters. -/
structure MemoryStore where
  items : List (String × CacheEntry)
  capacity : Int
  usage : Int
deriving DecidableEq, Repr

/-- `MemoryStore.Get` (memory_store.go:25-33). -/
def MemoryStore.get (s : MemoryStore) (key : String) : Option CacheEntry :=
  lookupKey s.items key

/-- The usage `MemoryStore.Set` would reach: `usage + entry.Size`, minus
the size of a replaced entry (memory_store.go:39-42). -/
def MemoryStore.newUsageFor (s : MemoryStore) (entry : CacheEntry) : Int :=
  s.usage + entry.size -
    (match lookupKey s.items entry.key with
     | some existing => existing.size
     | none => 0)

/-- `MemoryStore.Set` (memory_store.go:35-51): the usage delta accounts for
a replaced entry; an over-capacity write is rejected with the sentinel and
leaves the store unchanged. -/
def MemoryStore.set (s : MemoryStore) (entry : CacheEntry) :
    MemoryStore × Option StoreErr :=
  if s.newUsageFor entry > s.capacity then
    (s, some StoreErr.errInsufficientCapacity)
  else
    ({ s with items := putKey s.items entry.key entry, usage := s.newUsageFor entry },
      none)

/-- `MemoryStore.Delete` (memory_store.go:53-62): always returns nil. -/
def MemoryStore.delete (s : MemoryStore) (key : String) : MemoryStore :=
  match lookupKey s.items key with
  | some entry => { s with items := removeKey s.items key, usage := s.usage - entry.size }
  | none => s

/-- `MemoryStore.Clear` (memory_store.go:64-71). -/
def MemoryStore.clear (s : MemoryStore) : MemoryStore :=
  { s with items := [], usage := 0 }

/-- `MemoryStore.GetAll` (memory_store.go:94-103). -/
def MemoryStore.getAll (s : MemoryStore) : List CacheEntry :=
  s.items.map (fun p => p.2)

/-- In-place mutation of a stored entry through the pointer returned by
`Get` (the coordinator's `entry.LastAccess = ...; entry.Frequency++` on a
memory hit, cache.go:72-73): the map still holds the same entry object. -/
def MemoryStore.updateEntry (s : MemoryStore) (key : String) (entry : CacheEntry) :
    MemoryStore :=
  { s with items := putKey s.items key entry }

/-! ### DiskStore (disk_store.go) -/

/-- `DiskStore` (disk_store.go:13-18): one file per key under a scratch
directory; each file holds the gob encoding of the entry last written. -/
structure DiskStore where
  dir : List (String × CacheEntry)
  capacity : Int
  usage : Int
deriving DecidableEq, Repr

/-- `DiskStore.Get` (disk_store.go:32-49): decodes the file into a fresh
`CacheEntry` value (a copy, not a pointer into the store). -/
def DiskStore.get (s : DiskStore) (key : String) : Option CacheEntry :=
  lookupKey s.dir key

/-- `DiskStore.Set` (disk_store.go:51-72): rejects over-capacity writes
with a fresh `errors.New` (not the package sentinel); otherwise
`os.Create` truncates/overwrites the file and `usage += entry.Size` is
charged unconditionally, with no adjustment for a replaced file. -/
def DiskStore.set (s : DiskStore) (entry : CacheEntry) :
    DiskStore × Option StoreErr :=
  if s.usage + entry.size > s.capacity then
    (s, some StoreErr.diskInsufficientCapacity)
  else
    ({ s with dir := putKey s.dir entry.key entry, usage := s.usage + entry.size }, none)

/-- `DiskStore.Delete` (disk_store.go:74-85): if `os.Stat` succeeds the
store credits `usage` with the FILE length — the length of the gob
encoding of the stored entry, supplied as `gobLen` — and removes the file;
for an absent key it is a no-op returning nil. -/
def DiskStore.delete (gobLen : CacheEntry → Int) (s : DiskStore) (key : String) :
    DiskStore :=
  match lookupKey s.dir key with
  | some entry => { s with dir := removeKey s.dir key, usage := s.usage - gobLen entry }
  | none => s

/-- `DiskStore.Clear` (disk_store.go:87-96). -/
def DiskStore.clear (s : DiskStore) : DiskStore :=
  { s with dir := [], usage := 0 }

/-- `DiskStore.GetAll` (disk_store.go:120-133): decodes every file. -/
def DiskStore.getAll (s : DiskStore) : List CacheEntry :=
  s.dir.map (fun p => p.2)

/-! ### RemoteStore in simulated mode (remote_store.go) -/

/-- `RemoteStore` with `simulate = true` (remote_store.go:15-20): an
in-process map from key to raw byte value. -/
structure RemoteStore where
  simulateMap : List (String × List Nat)
deriving DecidableEq, Repr

/-- `RemoteStore.Get` (remote_store.go:50-59): on a hit it builds
`&CacheEntry{Key: key, Value: val}`, so `Size`, `LastAccess` and
`Frequency` keep their Go zero values. -/
def RemoteStore.get (s : RemoteStore) (key : String) : Option CacheEntry :=
  (lookupKey s.simulateMap key).map
    (fun val => { key := key, value := val, size := 0, lastAccess := 0, frequency := 0 })

/-- `RemoteStore.Set` (remote_store.go:67-74): stores the raw value with no
capacity check and never fails in simulated mode. -/
def RemoteStore.set (s : RemoteStore) (entry : CacheEntry) : RemoteStore :=
  { simulateMap := putKey s.simulateMap entry.key entry.value }

/-- `RemoteStore.Delete` (remote_store.go:78-84). -/
def RemoteStore.delete (s : RemoteStore) (key : String) : RemoteStore :=
  { simulateMap := removeKey s.simulateMap key }

/-- `RemoteStore.Clear` (remote_store.go:88-95). -/
def RemoteStore.clear (s : RemoteStore) : RemoteStore :=
  { simulateMap := [] }

/-- Simulated usage (remote_store.go:147-150): sum of stored value
lengths. -/
def RemoteStore.usage (s : RemoteStore) : Int :=
  (s.simulateMap.map (fun p => (p.2.length : Int))).sum

/-- Simulated capacity (remote_store.go:151): a fixed 100 MiB. -/
def RemoteStore.capacity : Int := 1024 * 1024 * 100

/-- `RemoteStore.GetAll` in simulated mode (remote_store.go:117-127):
entries carry zero `Size`/`LastAccess`/`Frequency` like `Get`. -/
def RemoteStore.getAll (s : RemoteStore) : List CacheEntry :=
  s.simulateMap.map
    (fun p => { key := p.1, value := p.2, size := 0, lastAccess := 0, frequency := 0 })

/-! ### LRU eviction policy (the repository's only policy) -/

/-- The loop body of `LRUPolicy.Choose`: `oldestAccess` starts at
`time.Now()` and `oldestKey` at `""`; an entry is picked only when its
`LastAccess` is strictly `Before` the running minimum. -/
def lruGo : List CacheEntry → Int → String → String
  | [], _, oldestKey => oldestKey
  | e :: rest, oldestAccess, oldestKey =>
    if e.lastAccess < oldestAccess then lruGo rest e.lastAccess e.key
    else lruGo rest oldestAccess oldestKey

/-- `LRUPolicy.Choose`: returns `""` for an empty snapshot, otherwise scans
for the entry with the oldest `LastAccess` strictly before `now`. -/
def LRUPolicy.choose (now : Int) (entries : List CacheEntry) : String :=
  if entries.isEmpty then "" else lruGo entries now ""

/-! ### MultiTierCache coordinator (cache.go) -/

/-- `MultiTierCache` (cache.go:33-44), with the remote tier in simulated
mode and the policy fixed to the shipped `LRUPolicy`. -/
structure MultiTierCache where
  memoryStore : MemoryStore
  diskStore : DiskStore
  remoteStore : RemoteStore
  statsHits : Int
  statsMisses : Int
deriving DecidableEq, Repr

/-- `NewMultiTierCache` (cache.go:46-63) under `SIMULATE_REMOTE_STORE=true`:
fresh empty tiers with the given capacities. -/
def MultiTierCache.new (memCap diskCap : Int) : MultiTierCache :=
  { memoryStore := { items := [], capacity := memCap, usage := 0 }
    diskStore := { dir := [], capacity := diskCap, usage := 0 }
    remoteStore := { simulateMap := [] }
    statsHits := 0
    statsMisses := 0 }

/-- `GetCapacity` of the store a tier tag denotes. -/
def MultiTierCache.tierCapacity (c : MultiTierCache) : Tier → Int
  | Tier.memory => c.memoryStore.capacity
  | Tier.disk => c.diskStore.capacity
  | Tier.remote => RemoteStore.capacity

/-- `GetUsage` of the store a tier tag denotes. -/
def MultiTierCache.tierUsage (c : MultiTierCache) : Tier → Int
  | Tier.memory => c.memoryStore.usage
  | Tier.disk => c.diskStore.usage
  | Tier.remote => c.remoteStore.usage

/-- `GetAll` of the store a tier tag denotes. -/
def MultiTierCache.tierGetAll (c : MultiTierCache) : Tier → List CacheEntry
  | Tier.memory => c.memoryStore.getAll
  | Tier.disk => c.diskStore.getAll
  | Tier.remote => c.remoteStore.getAll

/-- `Get` on the store a tier tag denotes (errors collapsed to `none`). -/
def MultiTierCache.tierGet (c : MultiTierCache) (t : Tier) (key : String) :
    Option CacheEntry :=
  match t with
  | Tier.memory => c.memoryStore.get key
  | Tier.disk => c.diskStore.get key
  | Tier.remote => c.remoteStore.get key

/-- `Delete` on the store a tier tag denotes. -/
def MultiTierCache.tierDelete (gobLen : CacheEntry → Int) (c : MultiTierCache)
    (t : Tier) (key : String) : MultiTierCache :=
  match t with
  | Tier.memory => { c with memoryStore := c.memoryStore.delete key }
  | Tier.disk => { c with diskStore := c.diskStore.delete gobLen key }
  | Tier.remote => { c with remoteStore := c.remoteStore.delete key }

/-- `getNextTier` (cache.go:199-208): the next-colder tier is inferred from
the victim's size alone — disk when the size fits the memory capacity,
else remote when it fits the disk capacity, else none. -/
def MultiTierCache.getNextTier (c : MultiTierCache) (entry : CacheEntry) :
    Option Tier :=
  if entry.size ≤ c.memoryStore.capacity then some Tier.disk
  else if entry.size ≤ c.diskStore.capacity then some Tier.remote
  else none

/-- `promoteEvictedEntry` (cache.go:193-197): hand the victim to the next
tier, ignoring the `Set` result; without a next tier the victim is
dropped. -/
def MultiTierCache.promoteEvictedEntry (c : MultiTierCache) (entry : CacheEntry) :
    MultiTierCache :=
  match c.getNextTier entry with
  | some Tier.disk => { c with diskStore := (c.diskStore.set entry).1 }
  | some Tier.remote => { c with remoteStore := c.remoteStore.set entry }
  | some Tier.memory => c
  | none => c

/-- One iteration body of `evict` (cache.go:184-188): read the victim,
delete it from the tier, and when the read succeeded demote the victim. -/
def MultiTierCache.evictStep (gobLen : CacheEntry → Int) (c : MultiTierCache)
    (t : Tier) (keyToEvict : String) : MultiTierCache :=
  match c.tierGet t keyToEvict with
  | some e => (c.tierDelete gobLen t keyToEvict).promoteEvictedEntry e
  | none => c.tierDelete gobLen t keyToEvict

/-- `evict` (cache.go:174-191) on explicit fuel: while the tier lacks
`required` free space, pick a victim with the policy, delete it and demote
it.  Every iteration of the Go loop either returns or deletes one resident
entry, so the fuel passed at call sites (resident count + 1) reproduces
the loop exactly; exhausted fuel answers `false` like a failed eviction. -/
def MultiTierCache.evict (gobLen : CacheEntry → Int) (now : Int) (t : Tier)
    (required : Int) : Nat → MultiTierCache → MultiTierCache × Bool
  | 0, c => (c, false)
  | Nat.succ fuel, c =>
    if c.tierCapacity t - c.tierUsage t < required then
      if (c.tierGetAll t).isEmpty then (c, false)
      else if LRUPolicy.choose now (c.tierGetAll t) = "" then (c, false)
      else
        MultiTierCache.evict gobLen now t required fuel
          (c.evictStep gobLen t (LRUPolicy.choose now (c.tierGetAll t)))
    else (c, true)

/-- The final write of `promoteToMemory` (cache.go:171): `Set` into the
fast tier with the result discarded. -/
def MultiTierCache.promoteWrite (c : MultiTierCache) (entry : CacheEntry) :
    MultiTierCache :=
  { c with memoryStore := (c.memoryStore.set entry).1 }

/-- `promoteToMemory` (cache.go:167-172): evict from the fast tier when the
entry would not fit, then write it, discarding the `Set` result. -/
def MultiTierCache.promoteToMemory (gobLen : CacheEntry → Int) (now : Int)
    (c : MultiTierCache) (entry : CacheEntry) : MultiTierCache :=
  if c.memoryStore.usage + entry.size > c.memoryStore.capacity then
    MultiTierCache.promoteWrite
      (MultiTierCache.evict gobLen now Tier.memory entry.size
        (c.memoryStore.items.length + 1) c).1 entry
  else MultiTierCache.promoteWrite c entry

/-- The coordinator's hit bookkeeping on an entry (cache.go:72-73, 80-81,
89-90): `LastAccess = time.Now()`, `Frequency++`. -/
def touch (now : Int) (entry : CacheEntry) : CacheEntry :=
  { entry with lastAccess := now, frequency := entry.frequency + 1 }

/-- `Get` (cache.go:65-97): probe memory, disk, remote; a memory hit
refreshes the stored entry through its pointer; a colder hit refreshes the
decoded copy, promotes it and leaves the colder copy in place. -/
def MultiTierCache.get (gobLen : CacheEntry → Int) (now : Int)
    (c : MultiTierCache) (key : String) : MultiTierCache × Option (List Nat) :=
  match c.memoryStore.get key with
  | some entry =>
    ({ c with
        memoryStore := c.memoryStore.updateEntry key (touch now entry)
        statsHits := c.statsHits + 1 },
      some (touch now entry).value)
  | none =>
    match c.diskStore.get key with
    | some entry =>
      (MultiTierCache.promoteToMemory gobLen now
        { c with statsHits := c.statsHits + 1 } (touch now entry),
        some (touch now entry).value)
    | none =>
      match c.remoteStore.get key with
      | some entry =>
        (MultiTierCache.promoteToMemory gobLen now
          { c with statsHits := c.statsHits + 1 } (touch now entry),
          some (touch now entry).value)
      | none =>
        ({ c with statsMisses := c.statsMisses + 1 }, none)

/-- The entry `Set` builds (cache.go:103-109): `Size = len(value)`,
`LastAccess = now`, `Frequency = 1`. -/
def mkSetEntry (now : Int) (key : String) (value : List Nat) : CacheEntry :=
  { key := key, value := value, size := (value.length : Int)
    lastAccess := now, frequency := 1 }

/-- The retry after a successful memory eviction (cache.go:120-125): if
the eviction reported success, attempt `memoryStore.Set` once more. -/
def MultiTierCache.setRetryMemory (entry : CacheEntry) (p : MultiTierCache × Bool) :
    MultiTierCache × Bool :=
  if p.2 then
    match (p.1.memoryStore.set entry).2 with
    | none => ({ p.1 with memoryStore := (p.1.memoryStore.set entry).1 }, true)
    | some _ => (p.1, false)
  else (p.1, false)

/-- The memory stage of `Set` (cache.go:111-126): try the fast tier, and
on the capacity sentinel evict and retry.  The boolean reports whether the
entry was admitted. -/
def MultiTierCache.setMemoryStage (gobLen : CacheEntry → Int) (now : Int)
    (c : MultiTierCache) (entry : CacheEntry) : MultiTierCache × Bool :=
  match (c.memoryStore.set entry).2 with
  | none => ({ c with memoryStore := (c.memoryStore.set entry).1 }, true)
  | some memErr =>
    if errorsIsCapacity memErr then
      MultiTierCache.setRetryMemory entry
        (MultiTierCache.evict gobLen now Tier.memory entry.size
          (c.memoryStore.items.length + 1) c)
    else (c, false)

/-- The retry after a successful disk eviction (cache.go:137-142). -/
def MultiTierCache.setRetryDisk (entry : CacheEntry) (p : MultiTierCache × Bool) :
    MultiTierCache × Bool :=
  if p.2 then
    match (p.1.diskStore.set entry).2 with
    | none => ({ p.1 with diskStore := (p.1.diskStore.set entry).1 }, true)
    | some _ => (p.1, false)
  else (p.1, false)

/-- The disk stage of `Set` (cache.go:128-143): try the local tier, and
evict-and-retry only when `errors.Is(err, ErrInsufficientCapacity)` holds
of the disk error. -/
def MultiTierCache.setDiskStage (gobLen : CacheEntry → Int) (now : Int)
    (c : MultiTierCache) (entry : CacheEntry) : MultiTierCache × Bool :=
  match (c.diskStore.set entry).2 with
  | none => ({ c with diskStore := (c.diskStore.set entry).1 }, true)
  | some diskErr =>
    if errorsIsCapacity diskErr then
      MultiTierCache.setRetryDisk entry
        (MultiTierCache.evict gobLen now Tier.disk entry.size
          (c.diskStore.dir.length + 1) c)
    else (c, false)

/-- The tail of `Set` after the disk stage (cache.go:145-146): admitted
entries return nil, otherwise the entry goes to the remote store, whose
simulated `Set` never fails. -/
def MultiTierCache.setRemoteStage (p : MultiTierCache × Bool) (entry : CacheEntry) :
    MultiTierCache × Option StoreErr :=
  if p.2 then (p.1, none)
  else ({ p.1 with remoteStore := p.1.remoteStore.set entry }, none)

/-- The tail of `Set` after the memory stage (cache.go:128-147). -/
def MultiTierCache.setFromDisk (gobLen : CacheEntry → Int) (now : Int)
    (p : MultiTierCache × Bool) (entry : CacheEntry) :
    MultiTierCache × Option StoreErr :=
  if p.2 then (p.1, none)
  else MultiTierCache.setRemoteStage (p.1.setDiskStage gobLen now entry) entry

/-- `Set` (cache.go:99-147): build the entry, try memory, on the capacity
sentinel evict and retry, fall through to disk with the same
evict-and-retry guarded by `errors.Is`, and finally hand the entry to the
remote store (whose simulated `Set` never fails). -/
def MultiTierCache.set (gobLen : CacheEntry → Int) (now : Int)
    (c : MultiTierCache) (key : String) (value : List Nat) :
    MultiTierCache × Option StoreErr :=
  MultiTierCache.setFromDisk gobLen now
    (c.setMemoryStage gobLen now (mkSetEntry now key value))
    (mkSetEntry now key value)

/-- The return-value plumbing of `Delete` (cache.go:149-156): the results
of the memory-tier and disk-tier deletions are discarded and the remote
tier's result is returned. -/
def deleteReturn (memResult diskResult remoteResult : Option StoreErr) :
    Option StoreErr :=
  remoteResult

/-- `Delete` (cache.go:149-156): best-effort deletion from every tier; in
simulated mode every tier's delete reports nil. -/
def MultiTierCache.delete (gobLen : CacheEntry → Int) (c : MultiTierCache)
    (key : String) : MultiTierCache × Option StoreErr :=
  ({ c with
      memoryStore := c.memoryStore.delete key
      diskStore := c.diskStore.delete gobLen key
      remoteStore := c.remoteStore.delete key },
    deleteReturn none none none)

/-- `Clear` (cache.go:158-165). -/
def MultiTierCache.clear (c : MultiTierCache) : MultiTierCache × Option StoreErr :=
  ({ c with
      memoryStore := c.memoryStore.clear
      diskStore := c.diskStore.clear
      remoteStore := c.remoteStore.clear },
    none)

/-! ### Derived observations used by the claims -/

/-- The number of tiers in which a key is currently resident. -/
def MultiTierCache.residentCount (c : MultiTierCache) (key : String) : Nat :=
  (if (c.memoryStore.get key).isSome then 1 else 0) +
  (if (c.diskStore.get key).isSome then 1 else 0) +
  (if (lookupKey c.remoteStore.simulateMap key).isSome then 1 else 0)

/-- Map representation invariant plus usage accounting for the memory
store: usage is the sum of resident sizes, keys are unique, and each
binding stores an entry carrying its own key. -/
def MemoryStore.WF (s : MemoryStore) : Prop :=
  s.usage = (s.items.map (fun p => p.2.size)).sum ∧
  (s.items.map Prod.fst).Nodup ∧
  ∀ p ∈ s.items, p.1 = p.2.key

/-- A representative gob-encoded file length: the encoding of a
`CacheEntry` contains the value bytes, the key bytes, per-field framing
and a type descriptor, so it strictly exceeds `entry.size`; 66 bytes of
overhead stands in for that framing.  Theorems that depend on the encoded
length take the strict bound as a hypothesis instead of relying on this
representative. -/
def gobLenApprox (entry : CacheEntry) : Int := entry.size + 66

/-! ### Lemmas about the association-list operations -/

theorem lookupKey_putKey_self {α : Type} (l : List (String × α)) (k : String) (v : α) :
    lookupKey (putKey l k v) k = some v := by
  induction l with
  | nil => simp [putKey, lookupKey]
  | cons p t ih =>
    obtain ⟨k1, w⟩ := p
    by_cases h : k1 = k
    · simp [putKey, lookupKey, h]
    · simp [putKey, lookupKey, h, ih]

theorem lookupKey_putKey_ne {α : Type} (l : List (String × α)) (k k2 : String) (v : α)
    (h : k2 ≠ k) : lookupKey (putKey l k v) k2 = lookupKey l k2 := by
  have h2 : ¬ k = k2 := fun hh => h hh.symm
  induction l with
  | nil => simp [putKey, lookupKey, h2]
  | cons p t ih =>
    obtain ⟨k1, w⟩ := p
    by_cases h1 : k1 = k
    · subst h1
      simp [putKey, lookupKey, h2]
    · simp only [putKey, if_neg h1, lookupKey]
      by_cases h3 : k1 = k2 <;> simp [h3, ih]

theorem lookupKey_removeKey_self {α : Type} (l : List (String × α)) (k : String) :
    lookupKey (removeKey l k) k = none := by
  induction l with
  | nil => simp [removeKey, lookupKey]
  | cons p t ih =>
    obtain ⟨k1, w⟩ := p
    by_cases h : k1 = k
    · simp [removeKey, h, ih]
    · simp [removeKey, h, lookupKey, ih]

theorem lookupKey_removeKey_ne {α : Type} (l : List (String × α)) (k k2 : String)
    (h : k2 ≠ k) : lookupKey (removeKey l k) k2 = lookupKey l k2 := by
  have h2 : ¬ k = k2 := fun hh => h hh.symm
  induction l with
  | nil => simp [removeKey]
  | cons p t ih =>
    obtain ⟨k1, w⟩ := p
    by_cases h1 : k1 = k
    · subst h1
      simp [removeKey, lookupKey, h2, ih]
    · simp only [removeKey, if_neg h1, lookupKey]
      by_cases h3 : k1 = k2 <;> simp [h3, ih]

theorem mem_of_lookupKey {α : Type} (l : List (String × α)) (k : String) (v : α)
    (h : lookupKey l k = some v) : (k, v) ∈ l := by
  induction l with
  | nil => simp [lookupKey] at h
  | cons p t ih =>
    obtain ⟨k1, w⟩ := p
    by_cases h1 : k1 = k
    · subst h1
      rw [lookupKey, if_pos rfl] at h
      injection h with h
      subst h
      exact List.mem_cons_self _ _
    · rw [lookupKey, if_neg h1] at h
      exact List.mem_cons_of_mem _ (ih h)

theorem lookupKey_of_mem_nodup {α : Type} (l : List (String × α)) (k : String) (v : α)
    (hnd : (l.map Prod.fst).Nodup) (hm : (k, v) ∈ l) : lookupKey l k = some v := by
  induction l with
  | nil => simp at hm
  | cons p t ih =>
    obtain ⟨k1, w⟩ := p
    simp only [List.map_cons, List.nodup_cons] at hnd
    rcases List.mem_cons.mp hm with h | h
    · rw [Prod.mk.injEq] at h
      obtain ⟨rfl, rfl⟩ := h
      simp [lookupKey]
    · have hne : k1 ≠ k := by
        intro he
        subst he
        exact hnd.1 (List.mem_map_of_mem Prod.fst h)
      simp [lookupKey, hne, ih hnd.2 h]

theorem mem_removeKey {α : Type} (l : List (String × α)) (k : String)
    (p : String × α) (h : p ∈ removeKey l k) : p ∈ l := by
  induction l with
  | nil => simp [removeKey] at h
  | cons q t ih =>
    obtain ⟨k1, w⟩ := q
    by_cases h1 : k1 = k
    · simp only [removeKey, if_pos h1] at h
      exact List.mem_cons_of_mem _ (ih h)
    · simp only [removeKey, if_neg h1] at h
      rcases List.mem_cons.mp h with h2 | h2
      · exact h2 ▸ List.mem_cons_self _ _
      · exact List.mem_cons_of_mem _ (ih h2)

theorem map_fst_removeKey_sublist {α : Type} (l : List (String × α)) (k : String) :
    ((removeKey l k).map Prod.fst).Sublist (l.map Prod.fst) := by
  induction l with
  | nil => simp [removeKey]
  | cons q t ih =>
    obtain ⟨k1, w⟩ := q
    by_cases h1 : k1 = k
    · simp only [removeKey, if_pos h1, List.map_cons]
      exact ih.trans (List.sublist_cons_self _ _)
    · simpa only [removeKey, if_neg h1, List.map_cons] using ih.cons₂ k1

theorem nodup_removeKey {α : Type} (l : List (String × α)) (k : String)
    (h : (l.map Prod.fst).Nodup) : ((removeKey l k).map Prod.fst).Nodup :=
  (map_fst_removeKey_sublist l k).nodup h

theorem length_removeKey_lt {α : Type} (l : List (String × α)) (k : String) (v : α)
    (h : lookupKey l k = some v) : (removeKey l k).length < l.length := by
  induction l with
  | nil => simp [lookupKey] at h
  | cons q t ih =>
    obtain ⟨k1, w⟩ := q
    by_cases h1 : k1 = k
    · simp only [removeKey, if_pos h1, List.length_cons]
      have hle : (removeKey t k).length ≤ t.length := by
        have hs := (map_fst_removeKey_sublist t k).length_le
        simpa using hs
      exact Nat.lt_succ_of_le hle
    · rw [lookupKey, if_neg h1] at h
      simpa only [removeKey, if_neg h1, List.length_cons, Nat.succ_lt_succ_iff]
        using ih h

theorem removeKey_of_lookup_none {α : Type} (l : List (String × α)) (k : String)
    (h : lookupKey l k = none) : removeKey l k = l := by
  induction l with
  | nil => simp [removeKey]
  | cons q t ih =>
    obtain ⟨k1, w⟩ := q
    by_cases h1 : k1 = k
    · simp [lookupKey, h1] at h
    · simp only [lookupKey, if_neg h1] at h
      simp [removeKey, h1, ih h]

theorem sum_map_removeKey (f : CacheEntry → Int)
    (l : List (String × CacheEntry)) (k : String) (v : CacheEntry)
    (hnd : (l.map Prod.fst).Nodup) (h : lookupKey l k = some v) :
    ((removeKey l k).map (fun p => f p.2)).sum = (l.map (fun p => f p.2)).sum - f v := by
  induction l with
  | nil => simp [lookupKey] at h
  | cons q t ih =>
    obtain ⟨k1, w⟩ := q
    simp only [List.map_cons, List.nodup_cons] at hnd
    by_cases h1 : k1 = k
    · subst h1
      rw [lookupKey, if_pos rfl] at h
      injection h with h
      subst h
      have hnone : lookupKey t k1 = none := by
        cases hl : lookupKey t k1 with
        | none => rfl
        | some u =>
          exact absurd (List.mem_map_of_mem Prod.fst (mem_of_lookupKey t k1 u hl))
            hnd.1
      simp [removeKey, removeKey_of_lookup_none t k1 hnone]
    · rw [lookupKey, if_neg h1] at h
      simp only [removeKey, if_neg h1, List.map_cons, List.sum_cons, ih hnd.2 h]
      ring

/-! ### Lemmas about the individual stores -/

theorem memStore_set_of_gt (s : MemoryStore) (e : CacheEntry)
    (h : s.newUsageFor e > s.capacity) :
    s.set e = (s, some StoreErr.errInsufficientCapacity) := by
  simp [MemoryStore.set, h]

theorem memStore_set_of_le (s : MemoryStore) (e : CacheEntry)
    (h : ¬ s.newUsageFor e > s.capacity) :
    s.set e =
      ({ s with items := putKey s.items e.key e, usage := s.newUsageFor e }, none) := by
  simp [MemoryStore.set, h]

theorem MemoryStore.newUsageFor_of_absent (s : MemoryStore) (e : CacheEntry)
    (h : s.get e.key = none) : s.newUsageFor e = s.usage + e.size := by
  unfold MemoryStore.get at h
  simp [MemoryStore.newUsageFor, h]

theorem memStore_set_ok_lookup_self (s : MemoryStore) (e : CacheEntry)
    (h : (s.set e).2 = none) : (s.set e).1.get e.key = some e := by
  by_cases hc : s.newUsageFor e > s.capacity
  · simp [memStore_set_of_gt s e hc] at h
  · simp [memStore_set_of_le s e hc, MemoryStore.get, lookupKey_putKey_self]

theorem memStore_set_fst_lookup_ne (s : MemoryStore) (e : CacheEntry) (k : String)
    (h : k ≠ e.key) : (s.set e).1.get k = s.get k := by
  by_cases hc : s.newUsageFor e > s.capacity
  · simp [memStore_set_of_gt s e hc]
  · simp [memStore_set_of_le s e hc, MemoryStore.get,
      lookupKey_putKey_ne s.items e.key k e h]

theorem diskStore_set_of_gt (s : DiskStore) (e : CacheEntry)
    (h : s.usage + e.size > s.capacity) :
    s.set e = (s, some StoreErr.diskInsufficientCapacity) := by
  simp [DiskStore.set, h]

theorem diskStore_set_of_le (s : DiskStore) (e : CacheEntry)
    (h : ¬ s.usage + e.size > s.capacity) :
    s.set e =
      ({ s with dir := putKey s.dir e.key e, usage := s.usage + e.size }, none) := by
  simp [DiskStore.set, h]

theorem diskStore_set_ok_lookup_self (s : DiskStore) (e : CacheEntry)
    (h : (s.set e).2 = none) : (s.set e).1.get e.key = some e := by
  by_cases hc : s.usage + e.size > s.capacity
  · simp [diskStore_set_of_gt s e hc] at h
  · simp [diskStore_set_of_le s e hc, DiskStore.get, lookupKey_putKey_self]

theorem diskStore_set_fst_lookup_ne (s : DiskStore) (e : CacheEntry) (k : String)
    (h : k ≠ e.key) : (s.set e).1.get k = s.get k := by
  by_cases hc : s.usage + e.size > s.capacity
  · simp [diskStore_set_of_gt s e hc]
  · simp [diskStore_set_of_le s e hc, DiskStore.get,
      lookupKey_putKey_ne s.dir e.key k e h]

theorem RemoteStore.set_lookup_self (s : RemoteStore) (e : CacheEntry) :
    lookupKey (s.set e).simulateMap e.key = some e.value := by
  simp [RemoteStore.set, lookupKey_putKey_self]

theorem RemoteStore.set_lookup_ne (s : RemoteStore) (e : CacheEntry) (k : String)
    (h : k ≠ e.key) :
    lookupKey (s.set e).simulateMap k = lookupKey s.simulateMap k := by
  simp [RemoteStore.set, lookupKey_putKey_ne s.simulateMap e.key k e.value h]

/-! ### The LRU scan: a full characterization of `lruGo` -/

/-- The scan either keeps the seed key — exactly when no entry is strictly
older than the seed instant — or returns the key of an entry strictly
older than the seed and of minimal `lastAccess` in the snapshot. -/
theorem lruGo_spec (l : List CacheEntry) (oldest : Int) (k : String) :
    (lruGo l oldest k = k ∧ ∀ e ∈ l, oldest ≤ e.lastAccess) ∨
    (∃ e ∈ l, e.key = lruGo l oldest k ∧ e.lastAccess < oldest ∧
      ∀ x ∈ l, e.lastAccess ≤ x.lastAccess) := by
  induction l generalizing oldest k with
  | nil => exact Or.inl ⟨rfl, by simp⟩
  | cons e rest ih =>
    by_cases h : e.lastAccess < oldest
    · rw [lruGo, if_pos h]
      rcases ih e.lastAccess e.key with ⟨heq, hall⟩ | ⟨w, hw, hkey, hlt, hmin⟩
      · refine Or.inr ⟨e, List.mem_cons_self _ _, heq.symm ▸ rfl, h, ?_⟩
        intro x hx
        rcases List.mem_cons.mp hx with rfl | hx
        · exact le_refl _
        · exact hall x hx
      · refine Or.inr ⟨w, List.mem_cons_of_mem _ hw, hkey, hlt.trans h, ?_⟩
        intro x hx
        rcases List.mem_cons.mp hx with rfl | hx
        · exact le_of_lt hlt
        · exact hmin x hx
    · rw [lruGo, if_neg h]
      rcases ih oldest k with ⟨heq, hall⟩ | ⟨w, hw, hkey, hlt, hmin⟩
      · refine Or.inl ⟨heq, ?_⟩
        intro x hx
        rcases List.mem_cons.mp hx with rfl | hx
        · exact le_of_not_lt h
        · exact hall x hx
      · refine Or.inr ⟨w, List.mem_cons_of_mem _ hw, hkey, hlt, ?_⟩
        intro x hx
        rcases List.mem_cons.mp hx with rfl | hx
        · exact hlt.le.trans (le_of_not_lt h)
        · exact hmin x hx

/-! ### Lemmas about the eviction cascade on the memory tier -/

theorem promoteEvictedEntry_memoryStore (c : MultiTierCache) (e : CacheEntry) :
    (c.promoteEvictedEntry e).memoryStore = c.memoryStore := by
  unfold MultiTierCache.promoteEvictedEntry
  split <;> rfl

theorem promoteEvictedEntry_disk_lookup_ne (c : MultiTierCache) (e : CacheEntry)
    (k : String) (h : k ≠ e.key) :
    (c.promoteEvictedEntry e).diskStore.get k = c.diskStore.get k := by
  unfold MultiTierCache.promoteEvictedEntry
  split
  · exact diskStore_set_fst_lookup_ne _ _ _ h
  · rfl
  · rfl
  · rfl

theorem promoteEvictedEntry_remote_lookup_ne (c : MultiTierCache) (e : CacheEntry)
    (k : String) (h : k ≠ e.key) :
    lookupKey (c.promoteEvictedEntry e).remoteStore.simulateMap k =
      lookupKey c.remoteStore.simulateMap k := by
  unfold MultiTierCache.promoteEvictedEntry
  split
  · rfl
  · exact RemoteStore.set_lookup_ne _ _ _ h
  · rfl
  · rfl

/-- Facts preserved by one eviction step on the memory tier at a key the
tier does not hold: the key stays absent from memory, the disk and remote
lookups at the key are untouched, and key-consistency of the memory items
is maintained. -/
theorem evictStep_memory_untouched (gobLen : CacheEntry → Int) (c : MultiTierCache)
    (keyToEvict k : String)
    (hcons : ∀ p ∈ c.memoryStore.items, p.1 = p.2.key)
    (habs : c.memoryStore.get k = none) :
    (c.evictStep gobLen Tier.memory keyToEvict).memoryStore.get k = none ∧
    (c.evictStep gobLen Tier.memory keyToEvict).diskStore.get k = c.diskStore.get k ∧
    lookupKey (c.evictStep gobLen Tier.memory keyToEvict).remoteStore.simulateMap k =
      lookupKey c.remoteStore.simulateMap k ∧
    ∀ p ∈ (c.evictStep gobLen Tier.memory keyToEvict).memoryStore.items, p.1 = p.2.key := by
  unfold MultiTierCache.evictStep
  cases hev : c.tierGet Tier.memory keyToEvict with
  | none =>
    simp only [MultiTierCache.tierGet] at hev
    simp only [MultiTierCache.tierDelete, MemoryStore.delete]
    unfold MemoryStore.get at hev
    simp only [hev]
    exact ⟨habs, trivial, trivial, hcons⟩
  | some ev =>
    simp only [MultiTierCache.tierGet] at hev
    have hne : keyToEvict ≠ k := by
      intro hcontra
      rw [hcontra, habs] at hev
      exact Option.noConfusion hev
    have hevkey : ev.key = keyToEvict := by
      have hmem := mem_of_lookupKey _ _ _ hev
      exact (hcons _ hmem).symm
    have hkne : k ≠ ev.key := by
      rw [hevkey]
      exact fun hh => hne hh.symm
    simp only [MultiTierCache.tierDelete, MemoryStore.delete]
    unfold MemoryStore.get at hev
    simp only [hev]
    constructor
    · rw [promoteEvictedEntry_memoryStore]
      show lookupKey (removeKey c.memoryStore.items keyToEvict) k = none
      rw [lookupKey_removeKey_ne _ _ _ (fun hh => hne hh.symm)]
      exact habs
    constructor
    · rw [promoteEvictedEntry_disk_lookup_ne _ _ _ hkne]
    constructor
    · rw [promoteEvictedEntry_remote_lookup_ne _ _ _ hkne]
    · rw [promoteEvictedEntry_memoryStore]
      intro p hp
      exact hcons p (mem_removeKey _ _ _ hp)

/-- `evict` on the memory tier never installs or disturbs a key the tier
does not hold: the key stays absent from memory, disk and remote lookups
at the key are untouched, and key-consistency is maintained. -/
theorem evict_memory_untouched (gobLen : CacheEntry → Int) (now req : Int) :
    ∀ (fuel : Nat) (c : MultiTierCache) (k : String),
      (∀ p ∈ c.memoryStore.items, p.1 = p.2.key) →
      c.memoryStore.get k = none →
      (MultiTierCache.evict gobLen now Tier.memory req fuel c).1.memoryStore.get k = none ∧
      (MultiTierCache.evict gobLen now Tier.memory req fuel c).1.diskStore.get k =
        c.diskStore.get k ∧
      lookupKey (MultiTierCache.evict gobLen now Tier.memory req fuel c).1.remoteStore.simulateMap k =
        lookupKey c.remoteStore.simulateMap k ∧
      ∀ p ∈ (MultiTierCache.evict gobLen now Tier.memory req fuel c).1.memoryStore.items,
        p.1 = p.2.key := by
  intro fuel
  induction fuel with
  | zero =>
    intro c k hcons habs
    exact ⟨habs, rfl, rfl, hcons⟩
  | succ n ih =>
    intro c k hcons habs
    rw [MultiTierCache.evict]
    by_cases h1 : c.tierCapacity Tier.memory - c.tierUsage Tier.memory < req
    · rw [if_pos h1]
      by_cases h2 : (c.tierGetAll Tier.memory).isEmpty
      · rw [if_pos h2]
        exact ⟨habs, rfl, rfl, hcons⟩
      · rw [if_neg h2]
        by_cases h3 : LRUPolicy.choose now (c.tierGetAll Tier.memory) = ""
        · rw [if_pos h3]
          exact ⟨habs, rfl, rfl, hcons⟩
        · rw [if_neg h3]
          obtain ⟨hm, hd, hr, hc⟩ :=
            evictStep_memory_untouched gobLen c
              (LRUPolicy.choose now (c.tierGetAll Tier.memory)) k hcons habs
          obtain ⟨hm2, hd2, hr2, hc2⟩ := ih _ k hc hm
          exact ⟨hm2, hd2.trans hd, hr2.trans hr, hc2⟩
    · rw [if_neg h1]
      exact ⟨habs, rfl, rfl, hcons⟩

/-- For a well-formed memory tier whose entries are all strictly older
than `now` and carry non-empty keys, `evict` with enough fuel and a
requirement within capacity succeeds and frees the requested space. -/
theorem evict_memory_frees (gobLen : CacheEntry → Int) (now req : Int) :
    ∀ (fuel : Nat) (c : MultiTierCache),
      c.memoryStore.WF →
      (∀ p ∈ c.memoryStore.items, p.2.lastAccess < now ∧ p.2.key ≠ "") →
      req ≤ c.memoryStore.capacity →
      c.memoryStore.items.length < fuel →
      (MultiTierCache.evict gobLen now Tier.memory req fuel c).2 = true ∧
      (MultiTierCache.evict gobLen now Tier.memory req fuel c).1.memoryStore.capacity =
        c.memoryStore.capacity ∧
      req ≤ (MultiTierCache.evict gobLen now Tier.memory req fuel c).1.memoryStore.capacity -
        (MultiTierCache.evict gobLen now Tier.memory req fuel c).1.memoryStore.usage := by
  intro fuel
  induction fuel with
  | zero =>
    intro c _ _ _ hlen
    exact absurd hlen (Nat.not_lt_zero _)
  | succ n ih =>
    intro c hwf hold hreq hlen
    obtain ⟨hsum, hnodup, hcons⟩ := hwf
    rw [MultiTierCache.evict]
    by_cases h1 : c.tierCapacity Tier.memory - c.tierUsage Tier.memory < req
    · rw [if_pos h1]
      have h1m : c.memoryStore.capacity - c.memoryStore.usage < req := h1
      by_cases h2 : (c.tierGetAll Tier.memory).isEmpty
      · exfalso
        have hmapnil : c.memoryStore.items.map (fun p => p.2) = [] :=
          List.isEmpty_iff.mp h2
        have hnil : c.memoryStore.items = [] := List.map_eq_nil_iff.mp hmapnil
        rw [hnil] at hsum
        simp only [List.map_nil, List.sum_nil] at hsum
        omega
      · rw [if_neg h2]
        have hEne : c.memoryStore.items.map (fun p => p.2) ≠ [] := by
          intro hh
          exact h2 (List.isEmpty_iff.mpr hh)
        rcases lruGo_spec (c.memoryStore.items.map (fun p => p.2)) now "" with
          ⟨heq, hall⟩ | ⟨w, hw, hkey, hlt, hmin⟩
        · exfalso
          obtain ⟨e0, he0⟩ := List.exists_mem_of_ne_nil _ hEne
          obtain ⟨p, hp, hpw⟩ := List.mem_map.mp he0
          have h5 := (hold p hp).1
          have h6 := hall e0 he0
          rw [hpw] at h5
          omega
        · obtain ⟨p, hp, hpw⟩ := List.mem_map.mp hw
          have hpkey : p.1 = w.key := by rw [hcons p hp, hpw]
          have hpmem : (w.key, w) ∈ c.memoryStore.items := by
            have hpe : p = (w.key, w) := Prod.ext hpkey hpw
            rw [hpe] at hp
            exact hp
          have hwkne : w.key ≠ "" := by
            have := (hold p hp).2
            rw [hpw] at this
            exact this
          have hchoose : LRUPolicy.choose now (c.tierGetAll Tier.memory) = w.key := by
            unfold LRUPolicy.choose
            rw [if_neg]
            · exact hkey.symm
            · exact h2
          rw [hchoose, if_neg hwkne]
          have hlookup : lookupKey c.memoryStore.items w.key = some w :=
            lookupKey_of_mem_nodup _ _ _ hnodup hpmem
          have hstep : c.evictStep gobLen Tier.memory w.key =
              (c.tierDelete gobLen Tier.memory w.key).promoteEvictedEntry w := by
            unfold MultiTierCache.evictStep
            have hg : c.tierGet Tier.memory w.key = some w := hlookup
            rw [hg]
          rw [hstep]
          have hdel : (c.tierDelete gobLen Tier.memory w.key).memoryStore =
              { items := removeKey c.memoryStore.items w.key
                capacity := c.memoryStore.capacity
                usage := c.memoryStore.usage - w.size } := by
            show (c.memoryStore.delete w.key) = _
            unfold MemoryStore.delete
            rw [show (lookupKey c.memoryStore.items w.key) = some w from hlookup]
          have hmem3 : ((c.tierDelete gobLen Tier.memory w.key).promoteEvictedEntry
              w).memoryStore =
              { items := removeKey c.memoryStore.items w.key
                capacity := c.memoryStore.capacity
                usage := c.memoryStore.usage - w.size } := by
            rw [promoteEvictedEntry_memoryStore, hdel]
          have hwf3 : ((c.tierDelete gobLen Tier.memory w.key).promoteEvictedEntry
              w).memoryStore.WF := by
            rw [hmem3]
            refine ⟨?_, ?_, ?_⟩
            · show c.memoryStore.usage - w.size =
                ((removeKey c.memoryStore.items w.key).map (fun p => p.2.size)).sum
              rw [sum_map_removeKey CacheEntry.size _ _ _ hnodup hlookup, ← hsum]
            · exact nodup_removeKey _ _ hnodup
            · intro q hq
              exact hcons q (mem_removeKey _ _ _ hq)
          have hold3 : ∀ p ∈ ((c.tierDelete gobLen Tier.memory
              w.key).promoteEvictedEntry w).memoryStore.items,
              p.2.lastAccess < now ∧ p.2.key ≠ "" := by
            rw [hmem3]
            intro q hq
            exact hold q (mem_removeKey _ _ _ hq)
          have hreq3 : req ≤ ((c.tierDelete gobLen Tier.memory
              w.key).promoteEvictedEntry w).memoryStore.capacity := by
            rw [hmem3]
            exact hreq
          have hlen3 : ((c.tierDelete gobLen Tier.memory
              w.key).promoteEvictedEntry w).memoryStore.items.length < n := by
            rw [hmem3]
            exact Nat.lt_of_lt_of_le (length_removeKey_lt _ _ _ hlookup)
              (Nat.lt_succ_iff.mp hlen)
          obtain ⟨ha, hb, hc2⟩ := ih _ hwf3 hold3 hreq3 hlen3
          refine ⟨ha, ?_, hc2⟩
          rw [hb, hmem3]
    · rw [if_neg h1]
      refine ⟨rfl, rfl, ?_⟩
      exact not_lt.mp h1

/-- Promotion into a well-formed memory tier whose entries are strictly
older than `now` succeeds whenever the entry fits the tier's capacity and
is not already resident: the entry ends up resident in the fast tier. -/
theorem promoteToMemory_resident (gobLen : CacheEntry → Int) (now : Int)
    (c : MultiTierCache) (e : CacheEntry)
    (habs : c.memoryStore.get e.key = none)
    (hwf : c.memoryStore.WF)
    (hold : ∀ p ∈ c.memoryStore.items, p.2.lastAccess < now ∧ p.2.key ≠ "")
    (hsize : e.size ≤ c.memoryStore.capacity) :
    (c.promoteToMemory gobLen now e).memoryStore.get e.key = some e := by
  unfold MultiTierCache.promoteToMemory
  by_cases h1 : c.memoryStore.usage + e.size > c.memoryStore.capacity
  · rw [if_pos h1]
    obtain ⟨-, -, hroom⟩ := evict_memory_frees gobLen now e.size
      (c.memoryStore.items.length + 1) c hwf hold hsize (Nat.lt_succ_self _)
    obtain ⟨habs2, -, -, -⟩ := evict_memory_untouched gobLen now e.size
      (c.memoryStore.items.length + 1) c e.key hwf.2.2 habs
    unfold MultiTierCache.promoteWrite
    have hnew := MemoryStore.newUsageFor_of_absent _ e habs2
    have hok : ¬ (MultiTierCache.evict gobLen now Tier.memory e.size
        (c.memoryStore.items.length + 1) c).1.memoryStore.newUsageFor e >
        (MultiTierCache.evict gobLen now Tier.memory e.size
          (c.memoryStore.items.length + 1) c).1.memoryStore.capacity := by
      rw [hnew]
      omega
    rw [memStore_set_of_le _ _ hok]
    exact lookupKey_putKey_self _ _ _
  · rw [if_neg h1]
    unfold MultiTierCache.promoteWrite
    have hnew := MemoryStore.newUsageFor_of_absent _ e habs
    have hok : ¬ c.memoryStore.newUsageFor e > c.memoryStore.capacity := by
      rw [hnew]
      omega
    rw [memStore_set_of_le _ _ hok]
    exact lookupKey_putKey_self _ _ _

/-- Promotion into memory never disturbs the disk or remote lookup of a
key that is absent from memory. -/
theorem promoteToMemory_colder_untouched (gobLen : CacheEntry → Int) (now : Int)
    (c : MultiTierCache) (e : CacheEntry) (k : String)
    (hmc : ∀ p ∈ c.memoryStore.items, p.1 = p.2.key)
    (hm : c.memoryStore.get k = none) :
    (c.promoteToMemory gobLen now e).diskStore.get k = c.diskStore.get k ∧
    lookupKey (c.promoteToMemory gobLen now e).remoteStore.simulateMap k =
      lookupKey c.remoteStore.simulateMap k := by
  unfold MultiTierCache.promoteToMemory
  by_cases h1 : c.memoryStore.usage + e.size > c.memoryStore.capacity
  · rw [if_pos h1]
    obtain ⟨-, hd2, hr2, -⟩ := evict_memory_untouched gobLen now e.size
      (c.memoryStore.items.length + 1) c k hmc hm
    exact ⟨hd2, hr2⟩
  · rw [if_neg h1]
    exact ⟨rfl, rfl⟩

/-! ### Stage equations for `Set` -/

theorem setMemoryStage_ok (gobLen : CacheEntry → Int) (now : Int)
    (c : MultiTierCache) (entry : CacheEntry)
    (h1 : ¬ c.memoryStore.newUsageFor entry > c.memoryStore.capacity) :
    c.setMemoryStage gobLen now entry =
      ({ c with memoryStore := (c.memoryStore.set entry).1 }, true) := by
  unfold MultiTierCache.setMemoryStage
  rw [memStore_set_of_le _ _ h1]

theorem setMemoryStage_full (gobLen : CacheEntry → Int) (now : Int)
    (c : MultiTierCache) (entry : CacheEntry)
    (h1 : c.memoryStore.newUsageFor entry > c.memoryStore.capacity) :
    c.setMemoryStage gobLen now entry =
      MultiTierCache.setRetryMemory entry
        (MultiTierCache.evict gobLen now Tier.memory entry.size
          (c.memoryStore.items.length + 1) c) := by
  unfold MultiTierCache.setMemoryStage
  rw [memStore_set_of_gt _ _ h1]
  rfl

theorem setRetryMemory_true_ok (entry : CacheEntry) (p : MultiTierCache × Bool)
    (hp : p.2 = true)
    (h2 : ¬ p.1.memoryStore.newUsageFor entry > p.1.memoryStore.capacity) :
    MultiTierCache.setRetryMemory entry p =
      ({ p.1 with memoryStore := (p.1.memoryStore.set entry).1 }, true) := by
  unfold MultiTierCache.setRetryMemory
  rw [hp, if_pos rfl, memStore_set_of_le _ _ h2]

theorem setRetryMemory_true_full (entry : CacheEntry) (p : MultiTierCache × Bool)
    (hp : p.2 = true)
    (h2 : p.1.memoryStore.newUsageFor entry > p.1.memoryStore.capacity) :
    MultiTierCache.setRetryMemory entry p = (p.1, false) := by
  unfold MultiTierCache.setRetryMemory
  rw [hp, if_pos rfl, memStore_set_of_gt _ _ h2]

theorem setRetryMemory_false (entry : CacheEntry) (p : MultiTierCache × Bool)
    (hp : p.2 = false) :
    MultiTierCache.setRetryMemory entry p = (p.1, false) := by
  unfold MultiTierCache.setRetryMemory
  rw [hp]
  simp

theorem setFromDisk_true (gobLen : CacheEntry → Int) (now : Int)
    (c2 : MultiTierCache) (entry : CacheEntry) :
    MultiTierCache.setFromDisk gobLen now (c2, true) entry = (c2, none) := by
  unfold MultiTierCache.setFromDisk
  simp

theorem setFromDisk_false_disk_ok (gobLen : CacheEntry → Int) (now : Int)
    (c2 : MultiTierCache) (entry : CacheEntry)
    (h3 : ¬ c2.diskStore.usage + entry.size > c2.diskStore.capacity) :
    MultiTierCache.setFromDisk gobLen now (c2, false) entry =
      ({ c2 with diskStore := (c2.diskStore.set entry).1 }, none) := by
  unfold MultiTierCache.setFromDisk MultiTierCache.setDiskStage
    MultiTierCache.setRemoteStage
  rw [diskStore_set_of_le _ _ h3]
  simp

theorem setFromDisk_false_disk_full (gobLen : CacheEntry → Int) (now : Int)
    (c2 : MultiTierCache) (entry : CacheEntry)
    (h3 : c2.diskStore.usage + entry.size > c2.diskStore.capacity) :
    MultiTierCache.setFromDisk gobLen now (c2, false) entry =
      ({ c2 with remoteStore := c2.remoteStore.set entry }, none) := by
  unfold MultiTierCache.setFromDisk MultiTierCache.setDiskStage
    MultiTierCache.setRemoteStage
  rw [diskStore_set_of_gt _ _ h3]
  simp [errorsIsCapacity]

/-- Every run of `Set` goes through an intermediate cache `cmid` (either
the input unchanged or the input after a memory eviction cascade), returns
nil, and installs the entry either in memory, on disk, or in the remote
store of `cmid`. -/
theorem set_cases (gobLen : CacheEntry → Int) (now : Int) (c : MultiTierCache)
    (k : String) (v : List Nat) :
    ∃ cmid : MultiTierCache,
      (cmid = c ∨
        ∃ req fuel, cmid = (MultiTierCache.evict gobLen now Tier.memory req fuel c).1) ∧
      (c.set gobLen now k v).2 = none ∧
      (((c.set gobLen now k v).1 =
          { cmid with memoryStore := (cmid.memoryStore.set (mkSetEntry now k v)).1 } ∧
        (cmid.memoryStore.set (mkSetEntry now k v)).2 = none) ∨
       ((c.set gobLen now k v).1 =
          { cmid with diskStore := (cmid.diskStore.set (mkSetEntry now k v)).1 } ∧
        (cmid.diskStore.set (mkSetEntry now k v)).2 = none) ∨
       (c.set gobLen now k v).1 =
          { cmid with remoteStore := cmid.remoteStore.set (mkSetEntry now k v) }) := by
  by_cases h1 : c.memoryStore.newUsageFor (mkSetEntry now k v) > c.memoryStore.capacity
  case neg =>
    have hset : c.set gobLen now k v =
        ({ c with memoryStore := (c.memoryStore.set (mkSetEntry now k v)).1 }, none) := by
      unfold MultiTierCache.set
      rw [setMemoryStage_ok gobLen now c _ h1, setFromDisk_true]
    refine ⟨c, Or.inl rfl, by rw [hset], Or.inl ⟨by rw [hset], ?_⟩⟩
    rw [memStore_set_of_le _ _ h1]
  case pos =>
    have hstage : c.setMemoryStage gobLen now (mkSetEntry now k v) =
        MultiTierCache.setRetryMemory (mkSetEntry now k v)
          (MultiTierCache.evict gobLen now Tier.memory (mkSetEntry now k v).size
            (c.memoryStore.items.length + 1) c) :=
      setMemoryStage_full gobLen now c _ h1
    set E := MultiTierCache.evict gobLen now Tier.memory (mkSetEntry now k v).size
      (c.memoryStore.items.length + 1) c with hE
    have hEwit : E.1 = c ∨
        ∃ req fuel, E.1 = (MultiTierCache.evict gobLen now Tier.memory req fuel c).1 :=
      Or.inr ⟨(mkSetEntry now k v).size, c.memoryStore.items.length + 1, rfl⟩
    cases hE2 : E.2 with
    | true =>
      by_cases h2 : E.1.memoryStore.newUsageFor (mkSetEntry now k v) >
          E.1.memoryStore.capacity
      case neg =>
        have hset : c.set gobLen now k v =
            ({ E.1 with memoryStore := (E.1.memoryStore.set (mkSetEntry now k v)).1 },
              none) := by
          unfold MultiTierCache.set
          rw [hstage, setRetryMemory_true_ok _ _ hE2 h2, setFromDisk_true]
        refine ⟨E.1, hEwit, by rw [hset], Or.inl ⟨by rw [hset], ?_⟩⟩
        rw [memStore_set_of_le _ _ h2]
      case pos =>
        have hretry : MultiTierCache.setRetryMemory (mkSetEntry now k v) E =
            (E.1, false) := setRetryMemory_true_full _ _ hE2 h2
        by_cases h3 : E.1.diskStore.usage + (mkSetEntry now k v).size >
            E.1.diskStore.capacity
        case neg =>
          have hset : c.set gobLen now k v =
              ({ E.1 with diskStore := (E.1.diskStore.set (mkSetEntry now k v)).1 },
                none) := by
            unfold MultiTierCache.set
            rw [hstage, hretry, setFromDisk_false_disk_ok gobLen now E.1 _ h3]
          refine ⟨E.1, hEwit, by rw [hset], Or.inr (Or.inl ⟨by rw [hset], ?_⟩)⟩
          rw [diskStore_set_of_le _ _ h3]
        case pos =>
          have hset : c.set gobLen now k v =
              ({ E.1 with remoteStore := E.1.remoteStore.set (mkSetEntry now k v) },
                none) := by
            unfold MultiTierCache.set
            rw [hstage, hretry, setFromDisk_false_disk_full gobLen now E.1 _ h3]
          exact ⟨E.1, hEwit, by rw [hset], Or.inr (Or.inr (by rw [hset]))⟩
    | false =>
      have hretry : MultiTierCache.setRetryMemory (mkSetEntry now k v) E =
          (E.1, false) := setRetryMemory_false _ _ hE2
      by_cases h3 : E.1.diskStore.usage + (mkSetEntry now k v).size >
          E.1.diskStore.capacity
      case neg =>
        have hset : c.set gobLen now k v =
            ({ E.1 with diskStore := (E.1.diskStore.set (mkSetEntry now k v)).1 },
              none) := by
          unfold MultiTierCache.set
          rw [hstage, hretry, setFromDisk_false_disk_ok gobLen now E.1 _ h3]
        refine ⟨E.1, hEwit, by rw [hset], Or.inr (Or.inl ⟨by rw [hset], ?_⟩)⟩
        rw [diskStore_set_of_le _ _ h3]
      case pos =>
        have hset : c.set gobLen now k v =
            ({ E.1 with remoteStore := E.1.remoteStore.set (mkSetEntry now k v) },
              none) := by
          unfold MultiTierCache.set
          rw [hstage, hretry, setFromDisk_false_disk_full gobLen now E.1 _ h3]
        exact ⟨E.1, hEwit, by rw [hset], Or.inr (Or.inr (by rw [hset]))⟩

/-! ### Claim theorems -/

/-- Claim C1 (code bug, failing run): with `memCap = 0`, `diskCap = 10`,
after `set("a", 6 bytes)` lands on disk, a second `set("b", 6 bytes)` is
rejected by the disk for capacity — yet the coordinator performs no local
eviction (the disk tier is left exactly as it was) and falls through to
the remote store, because the disk's fresh `errors.New("insufficient
capacity")` does not satisfy `errors.Is(err, ErrInsufficientCapacity)`.
The first conjunct records the failed recognition itself. -/
theorem set_falls_to_remote_without_local_eviction :
    errorsIsCapacity StoreErr.diskInsufficientCapacity = false ∧
    ((((MultiTierCache.new 0 10).set gobLenApprox 1 "a" [1,1,1,1,1,1]).1.diskStore.set
        (mkSetEntry 2 "b" [2,2,2,2,2,2])).2 = some StoreErr.diskInsufficientCapacity) ∧
    (((MultiTierCache.new 0 10).set gobLenApprox 1 "a" [1,1,1,1,1,1]).1.set
        gobLenApprox 2 "b" [2,2,2,2,2,2]).1.diskStore =
      ((MultiTierCache.new 0 10).set gobLenApprox 1 "a" [1,1,1,1,1,1]).1.diskStore ∧
    (((MultiTierCache.new 0 10).set gobLenApprox 1 "a" [1,1,1,1,1,1]).1.set
        gobLenApprox 2 "b" [2,2,2,2,2,2]).2 = none ∧
    lookupKey (((MultiTierCache.new 0 10).set gobLenApprox 1 "a" [1,1,1,1,1,1]).1.set
        gobLenApprox 2 "b" [2,2,2,2,2,2]).1.remoteStore.simulateMap "b" =
      some [2,2,2,2,2,2] := by
  decide

/-- Claim C2 (code bug, failing run): with `memCap = 0`, `diskCap = 10`,
`set("a", 6 bytes)` stores the entry on disk charging 6 bytes, and
`delete("a")` credits the gob-encoded FILE length instead of the entry
size (disk_store.go:81), so for any encoding longer than the 6 payload
bytes — and the gob encoding of an entry strictly exceeds its payload,
since it contains the payload, the key, and framing — the disk tier's
reported usage ends up negative, violating `0 ≤ usage`. -/
theorem disk_usage_negative_after_delete (gobLen : CacheEntry → Int)
    (h : 6 < gobLen (⟨"a", [1,1,1,1,1,1], 6, 1, 1⟩ : CacheEntry)) :
    ((((MultiTierCache.new 0 10).set gobLen 1 "a" [1,1,1,1,1,1]).1.delete gobLen
        "a")).1.diskStore.usage < 0 := by
  have hu : ((((MultiTierCache.new 0 10).set gobLen 1 "a" [1,1,1,1,1,1]).1.delete
      gobLen "a")).1.diskStore.usage =
      6 - gobLen (⟨"a", [1,1,1,1,1,1], 6, 1, 1⟩ : CacheEntry) := rfl
  rw [hu]
  omega

/-- Witness for C2 at the representative encoded length. -/
theorem disk_usage_negative_after_delete_witness :
    6 < gobLenApprox (⟨"a", [1,1,1,1,1,1], 6, 1, 1⟩ : CacheEntry) ∧
    ((((MultiTierCache.new 0 10).set gobLenApprox 1 "a" [1,1,1,1,1,1]).1.delete
        gobLenApprox "a")).1.diskStore.usage < 0 :=
  ⟨by decide, disk_usage_negative_after_delete gobLenApprox (by decide)⟩

/-- Claim C3 (code bug, failing run): with `memCap = 0`, `diskCap = 20`,
setting the same 6-byte key twice routes both writes to the disk tier;
the overwrite charges the full size again (disk_store.go:70 adds
`entry.Size` with no adjustment for the replaced file), so usage reports
12 while the entries resident on disk sum to 6, violating
`usage == Σ entry.size`. -/
theorem disk_overwrite_double_charges_usage :
    ((((MultiTierCache.new 0 20).set gobLenApprox 1 "a" [1,1,1,1,1,1]).1.set
        gobLenApprox 2 "a" [1,1,1,1,1,1]).1.diskStore.usage = 12) ∧
    (((((MultiTierCache.new 0 20).set gobLenApprox 1 "a" [1,1,1,1,1,1]).1.set
        gobLenApprox 2 "a" [1,1,1,1,1,1]).1.diskStore.getAll.map
          (fun e => e.size)).sum = 6) := by
  decide

/-- Claim C5 (counterexample): a victim evicted from the local tier with
`size = 5 ≤ fast.capacity = 10` (and `≤ local.capacity = 20`) is handed by
`getNextTier` back to the local (disk) tier, not to the remote tier as the
claim asserts for all victim sizes. -/
theorem small_local_victim_not_handed_to_remote :
    ((5 : Int) ≤ 20 ∧ (5 : Int) ≤ 10) ∧
    (MultiTierCache.new 10 20).getNextTier
        { key := "x", value := [1,1,1,1,1], size := 5, lastAccess := 0, frequency := 1 } =
      some Tier.disk ∧
    some Tier.disk ≠ some Tier.remote := by
  decide

/-- Claim C5 (amended): for a victim that fits the local capacity, the
next-tier selection is determined by size alone — the local (disk) tier
when the victim fits the fast capacity, and the remote tier only
otherwise. -/
theorem next_tier_by_size_characterization (c : MultiTierCache) (e : CacheEntry)
    (h : e.size ≤ c.diskStore.capacity) :
    c.getNextTier e =
      some (if e.size ≤ c.memoryStore.capacity then Tier.disk else Tier.remote) := by
  unfold MultiTierCache.getNextTier
  by_cases h2 : e.size ≤ c.memoryStore.capacity
  · rw [if_pos h2, if_pos h2]
  · rw [if_neg h2, if_neg h2, if_pos h]

/-- Witness for the amended C5 at a victim of size 15 with
`fast.capacity = 10 < 15 ≤ 20 = local.capacity`. -/
theorem next_tier_by_size_characterization_witness :
    ((15 : Int) ≤ 20) ∧
    (MultiTierCache.new 10 20).getNextTier
        { key := "y", value := [], size := 15, lastAccess := 0, frequency := 1 } =
      some (if (15 : Int) ≤ 10 then Tier.disk else Tier.remote) :=
  ⟨by decide,
    next_tier_by_size_characterization (MultiTierCache.new 10 20)
      { key := "y", value := [], size := 15, lastAccess := 0, frequency := 1 }
      (by decide)⟩

/-- Claim C6 (counterexample): the return-value plumbing of `Delete`
(cache.go:153-155) returns only the remote tier's result; a non-not-found
error from the local tier is discarded, not surfaced. -/
theorem delete_discards_local_tier_error :
    deleteReturn none (some (StoreErr.other "remove failed")) none = none ∧
    some (StoreErr.other "remove failed") ≠ (none : Option StoreErr) := by
  exact ⟨rfl, by decide⟩

/-- Claim C6 (amended): `delete` attempts removal from all three tiers
(the key is afterwards absent from every tier, and deleting an absent key
is a no-op rather than an error), and its return value is exactly the
remote tier's result — results of the fast and local tiers, errors
included, are discarded. -/
theorem delete_removes_from_all_tiers_returns_remote_result
    (gobLen : CacheEntry → Int) (c : MultiTierCache) (k : String) :
    (c.delete gobLen k).1.memoryStore.get k = none ∧
    (c.delete gobLen k).1.diskStore.get k = none ∧
    lookupKey (c.delete gobLen k).1.remoteStore.simulateMap k = none ∧
    (c.delete gobLen k).2 = deleteReturn none none none ∧
    ∀ rm rd rr, deleteReturn rm rd rr = rr := by
  refine ⟨?_, ?_, ?_, rfl, fun _ _ _ => rfl⟩
  · show (c.memoryStore.delete k).get k = none
    unfold MemoryStore.delete
    cases hl : lookupKey c.memoryStore.items k with
    | some e => exact lookupKey_removeKey_self _ _
    | none => exact hl
  · show (c.diskStore.delete gobLen k).get k = none
    unfold DiskStore.delete
    cases hl : lookupKey c.diskStore.dir k with
    | some e => exact lookupKey_removeKey_self _ _
    | none => exact hl
  · show lookupKey (c.remoteStore.delete k).simulateMap k = none
    exact lookupKey_removeKey_self _ _

/-- Claim C9 (counterexample): `LRUPolicy.Choose` seeds its scan with
`time.Now()` and uses a strict `Before` comparison, so on the non-empty
snapshot holding a single entry whose `last_access` equals the current
instant it returns the empty key — and the same unchanged snapshot gives a
different answer one instant later, so the choice is not a function of the
snapshot alone. -/
theorem lru_choose_empty_key_on_nonempty_snapshot :
    LRUPolicy.choose 5
        [{ key := "a", value := [1], size := 1, lastAccess := 5, frequency := 1 }] = "" ∧
    ([{ key := "a", value := [1], size := 1, lastAccess := 5, frequency := 1 }] :
      List CacheEntry) ≠ [] ∧
    LRUPolicy.choose 6
        [{ key := "a", value := [1], size := 1, lastAccess := 5, frequency := 1 }] = "a" := by
  decide

/-- Claim C9 (amended): for snapshots of entries with non-empty keys,
`choose` returns the empty key exactly when no entry's `last_access` is
strictly before the current instant; otherwise it returns the key of an
entry of minimal `last_access` in the snapshot.  Determinism holds for a
fixed snapshot and instant (the embedding is a pure function of both). -/
theorem lru_choose_minimal_characterization (now : Int) (entries : List CacheEntry)
    (hk : ∀ e ∈ entries, e.key ≠ "") :
    (LRUPolicy.choose now entries = "" ↔ ∀ e ∈ entries, now ≤ e.lastAccess) ∧
    (LRUPolicy.choose now entries ≠ "" →
      ∃ e ∈ entries, e.key = LRUPolicy.choose now entries ∧ e.lastAccess < now ∧
        ∀ x ∈ entries, e.lastAccess ≤ x.lastAccess) := by
  by_cases hemp : entries.isEmpty
  · have hnil : entries = [] := List.isEmpty_iff.mp hemp
    subst hnil
    unfold LRUPolicy.choose
    refine ⟨⟨fun _ => by simp, fun _ => by simp⟩, fun h => absurd (by simp) h⟩
  · have hchoose : LRUPolicy.choose now entries = lruGo entries now "" := by
      unfold LRUPolicy.choose
      rw [if_neg hemp]
    rcases lruGo_spec entries now "" with ⟨heq, hall⟩ | ⟨w, hw, hkey, hlt, hmin⟩
    · rw [hchoose]
      refine ⟨⟨fun _ => hall, fun _ => heq⟩, fun h => absurd heq h⟩
    · rw [hchoose, ← hkey]
      constructor
      · constructor
        · intro h
          exact absurd h (hk w hw)
        · intro h
          exact absurd (h w hw) (not_le.mpr hlt)
      · intro _
        exact ⟨w, hw, rfl, hlt, hmin⟩

/-- Witness for the amended C9 on a two-entry snapshot. -/
theorem lru_choose_minimal_characterization_witness :
    (∀ e ∈ [({ key := "a", value := [1], size := 1, lastAccess := 0, frequency := 1 } :
        CacheEntry),
      { key := "b", value := [1], size := 1, lastAccess := 5, frequency := 1 }],
      e.key ≠ "") ∧
    ((LRUPolicy.choose 3
        [{ key := "a", value := [1], size := 1, lastAccess := 0, frequency := 1 },
         { key := "b", value := [1], size := 1, lastAccess := 5, frequency := 1 }] = "" ↔
      ∀ e ∈ [({ key := "a", value := [1], size := 1, lastAccess := 0, frequency := 1 } :
          CacheEntry),
        { key := "b", value := [1], size := 1, lastAccess := 5, frequency := 1 }],
        (3 : Int) ≤ e.lastAccess) ∧
     (LRUPolicy.choose 3
        [{ key := "a", value := [1], size := 1, lastAccess := 0, frequency := 1 },
         { key := "b", value := [1], size := 1, lastAccess := 5, frequency := 1 }] ≠ "" →
      ∃ e ∈ [({ key := "a", value := [1], size := 1, lastAccess := 0, frequency := 1 } :
          CacheEntry),
        { key := "b", value := [1], size := 1, lastAccess := 5, frequency := 1 }],
        e.key = LRUPolicy.choose 3
          [{ key := "a", value := [1], size := 1, lastAccess := 0, frequency := 1 },
           { key := "b", value := [1], size := 1, lastAccess := 5, frequency := 1 }] ∧
        e.lastAccess < 3 ∧
        ∀ x ∈ [({ key := "a", value := [1], size := 1, lastAccess := 0, frequency := 1 } :
            CacheEntry),
          { key := "b", value := [1], size := 1, lastAccess := 5, frequency := 1 }],
          e.lastAccess ≤ x.lastAccess)) :=
  ⟨by decide, lru_choose_minimal_characterization 3 _ (by decide)⟩

/-- Claim C4 (counterexample): with `memCap = 6`, `diskCap = 20`, setting
`k1`, then `k2` (which evicts `k1` to disk), then `k1` again returns
success while leaving `k1` resident in BOTH the fast tier (the fresh
write) and the local tier (the stale demoted copy). -/
theorem set_success_leaves_key_in_two_tiers :
    ((((MultiTierCache.new 6 20).set gobLenApprox 1 "k1" [1,1,1,1,1,1]).1.set
        gobLenApprox 2 "k2" [1,1,1,1,1,1]).1.set gobLenApprox 3 "k1"
        [1,1,1,1,1,1]).2 = none ∧
    ((((MultiTierCache.new 6 20).set gobLenApprox 1 "k1" [1,1,1,1,1,1]).1.set
        gobLenApprox 2 "k2" [1,1,1,1,1,1]).1.set gobLenApprox 3 "k1"
        [1,1,1,1,1,1]).1.residentCount "k1" = 2 := by
  decide

/-- Claim C4 (amended): for a key-consistent cache state in which the key
is not resident in ANY tier before the call, `set` returns success and
leaves the key resident in exactly one tier.  (When the key is already
resident in a colder tier, the stale copy is not removed — see the
counterexample.) -/
theorem set_unresident_key_lands_in_exactly_one_tier
    (gobLen : CacheEntry → Int) (now : Int) (c : MultiTierCache) (k : String)
    (v : List Nat)
    (hmc : ∀ p ∈ c.memoryStore.items, p.1 = p.2.key)
    (hm : c.memoryStore.get k = none)
    (hd : c.diskStore.get k = none)
    (hr : lookupKey c.remoteStore.simulateMap k = none) :
    (c.set gobLen now k v).2 = none ∧
    (c.set gobLen now k v).1.residentCount k = 1 := by
  obtain ⟨cmid, hcm, hret, hdisj⟩ := set_cases gobLen now c k v
  have hmid : cmid.memoryStore.get k = none ∧ cmid.diskStore.get k = none ∧
      lookupKey cmid.remoteStore.simulateMap k = none := by
    rcases hcm with rfl | ⟨req, fuel, rfl⟩
    · exact ⟨hm, hd, hr⟩
    · obtain ⟨a, b, r, -⟩ := evict_memory_untouched gobLen now req fuel c k hmc hm
      exact ⟨a, b.trans hd, r.trans hr⟩
  refine ⟨hret, ?_⟩
  rcases hdisj with ⟨heq, hok⟩ | ⟨heq, hok⟩ | heq
  · have hmm : (cmid.memoryStore.set (mkSetEntry now k v)).1.get k =
        some (mkSetEntry now k v) :=
      memStore_set_ok_lookup_self cmid.memoryStore (mkSetEntry now k v) hok
    rw [heq]
    simp [MultiTierCache.residentCount, hmm, hmid.2.1, hmid.2.2]
  · have hdd : (cmid.diskStore.set (mkSetEntry now k v)).1.get k =
        some (mkSetEntry now k v) :=
      diskStore_set_ok_lookup_self cmid.diskStore (mkSetEntry now k v) hok
    rw [heq]
    simp [MultiTierCache.residentCount, hdd, hmid.1, hmid.2.2]
  · have hrr : lookupKey (cmid.remoteStore.set (mkSetEntry now k v)).simulateMap k =
        some (mkSetEntry now k v).value :=
      RemoteStore.set_lookup_self cmid.remoteStore (mkSetEntry now k v)
    rw [heq]
    simp [MultiTierCache.residentCount, hrr, hmid.1, hmid.2.1]

/-- Witness for the amended C4 on a fresh cache. -/
theorem set_unresident_key_lands_in_exactly_one_tier_witness :
    ((MultiTierCache.new 4 8).memoryStore.get "z" = none ∧
     (MultiTierCache.new 4 8).diskStore.get "z" = none ∧
     lookupKey (MultiTierCache.new 4 8).remoteStore.simulateMap "z" = none) ∧
    ((MultiTierCache.new 4 8).set gobLenApprox 1 "z" [9,9]).2 = none ∧
    ((MultiTierCache.new 4 8).set gobLenApprox 1 "z" [9,9]).1.residentCount "z" = 1 := by
  refine ⟨⟨rfl, rfl, rfl⟩, ?_⟩
  exact set_unresident_key_lands_in_exactly_one_tier gobLenApprox 1
    (MultiTierCache.new 4 8) "z" [9,9]
    (fun p hp => absurd hp (List.not_mem_nil p)) rfl rfl rfl

/-- Claim C7: with the remote tier in its simulated mode, `set` never
returns any error at all — in particular never `InsufficientCapacity` —
and the entry is always admitted into at least one tier (the simulated
remote `Set` is unconditional, so the cascade always terminates in an
admission). -/
theorem set_never_returns_insufficient_capacity
    (gobLen : CacheEntry → Int) (now : Int) (c : MultiTierCache) (k : String)
    (v : List Nat) :
    (c.set gobLen now k v).2 = none ∧
    1 ≤ (c.set gobLen now k v).1.residentCount k := by
  obtain ⟨cmid, -, hret, hdisj⟩ := set_cases gobLen now c k v
  refine ⟨hret, ?_⟩
  rcases hdisj with ⟨heq, hok⟩ | ⟨heq, hok⟩ | heq
  · have hmm : (cmid.memoryStore.set (mkSetEntry now k v)).1.get k =
        some (mkSetEntry now k v) :=
      memStore_set_ok_lookup_self cmid.memoryStore (mkSetEntry now k v) hok
    rw [heq]
    unfold MultiTierCache.residentCount
    simp only [hmm]
    simp
    omega
  · have hdd : (cmid.diskStore.set (mkSetEntry now k v)).1.get k =
        some (mkSetEntry now k v) :=
      diskStore_set_ok_lookup_self cmid.diskStore (mkSetEntry now k v) hok
    rw [heq]
    unfold MultiTierCache.residentCount
    simp only [hdd]
    simp
    omega
  · have hrr : lookupKey (cmid.remoteStore.set (mkSetEntry now k v)).simulateMap k =
        some (mkSetEntry now k v).value :=
      RemoteStore.set_lookup_self cmid.remoteStore (mkSetEntry now k v)
    rw [heq]
    unfold MultiTierCache.residentCount
    simp only [hrr]
    simp

/-- Claim C8: a `get` that misses the fast tier and hits the local tier
(or misses both and hits the remote tier) returns the payload
unconditionally — a failed promotion write is swallowed — leaves the
colder tiers' lookups of the key untouched (the colder copy is not
removed), and, whenever the fast tier is well formed, its entries are
strictly older than `now`, and the entry fits the fast capacity, the
refreshed entry is afterwards resident in the fast tier (evicting first
exactly when `fast.usage + entry.size > fast.capacity`). -/
theorem read_hit_colder_tier_promotes_and_swallows
    (gobLen : CacheEntry → Int) (now : Int) (c : MultiTierCache) (k : String)
    (e : CacheEntry)
    (hm : c.memoryStore.get k = none)
    (hmc : ∀ p ∈ c.memoryStore.items, p.1 = p.2.key)
    (hdc : ∀ p ∈ c.diskStore.dir, p.1 = p.2.key)
    (hhit : c.diskStore.get k = some e ∨
      (c.diskStore.get k = none ∧ c.remoteStore.get k = some e)) :
    (c.get gobLen now k).2 = some e.value ∧
    (c.get gobLen now k).1.diskStore.get k = c.diskStore.get k ∧
    lookupKey (c.get gobLen now k).1.remoteStore.simulateMap k =
      lookupKey c.remoteStore.simulateMap k ∧
    (c.memoryStore.WF →
      (∀ p ∈ c.memoryStore.items, p.2.lastAccess < now ∧ p.2.key ≠ "") →
      e.size ≤ c.memoryStore.capacity →
      (c.get gobLen now k).1.memoryStore.get k = some (touch now e)) := by
  have hekey : e.key = k := by
    rcases hhit with hdk | ⟨-, hrk⟩
    · exact (hdc _ (mem_of_lookupKey _ _ _ hdk)).symm
    · unfold RemoteStore.get at hrk
      cases hl : lookupKey c.remoteStore.simulateMap k with
      | none => rw [hl] at hrk; exact Option.noConfusion hrk
      | some val =>
        rw [hl] at hrk
        injection hrk with hrk
        rw [← hrk]
  have hget : c.get gobLen now k =
      (MultiTierCache.promoteToMemory gobLen now
        { c with statsHits := c.statsHits + 1 } (touch now e),
        some (touch now e).value) := by
    unfold MultiTierCache.get
    rcases hhit with hdk | ⟨hdn, hrk⟩
    · rw [hm, hdk]
    · rw [hm, hdn, hrk]
  have huntouched := promoteToMemory_colder_untouched gobLen now
    { c with statsHits := c.statsHits + 1 } (touch now e) k hmc hm
  refine ⟨?_, ?_, ?_, ?_⟩
  · rw [hget]
    rfl
  · rw [hget]
    exact huntouched.1
  · rw [hget]
    exact huntouched.2
  · intro hwf hold hsize
    rw [hget]
    have hkey2 : (touch now e).key = k := hekey
    have habs : ({ c with statsHits := c.statsHits + 1 } :
        MultiTierCache).memoryStore.get (touch now e).key = none := by
      rw [hkey2]
      exact hm
    have hres := promoteToMemory_resident gobLen now
      { c with statsHits := c.statsHits + 1 } (touch now e) habs hwf hold hsize
    rw [← hkey2]
    exact hres

/-- Witness for C8: a concrete disk hit that gets promoted. -/
theorem read_hit_colder_tier_promotes_and_swallows_witness :
    (⟨⟨[], 10, 0⟩, ⟨[("k", ⟨"k", [7,7], 2, 0, 3⟩)], 20, 2⟩, ⟨[]⟩, 0, 0⟩ :
        MultiTierCache).memoryStore.get "k" = none ∧
    ((⟨⟨[], 10, 0⟩, ⟨[("k", ⟨"k", [7,7], 2, 0, 3⟩)], 20, 2⟩, ⟨[]⟩, 0, 0⟩ :
        MultiTierCache).get gobLenApprox 5 "k").2 = some [7,7] ∧
    ((⟨⟨[], 10, 0⟩, ⟨[("k", ⟨"k", [7,7], 2, 0, 3⟩)], 20, 2⟩, ⟨[]⟩, 0, 0⟩ :
        MultiTierCache).get gobLenApprox 5 "k").1.memoryStore.get "k" =
      some ⟨"k", [7,7], 2, 5, 4⟩ := by
  refine ⟨rfl, ?_, ?_⟩
  · exact (read_hit_colder_tier_promotes_and_swallows gobLenApprox 5
      (⟨⟨[], 10, 0⟩, ⟨[("k", ⟨"k", [7,7], 2, 0, 3⟩)], 20, 2⟩, ⟨[]⟩, 0, 0⟩ :
        MultiTierCache) "k"
      ⟨"k", [7,7], 2, 0, 3⟩ rfl (fun p hp => absurd hp (List.not_mem_nil p))
      (by decide) (Or.inl rfl)).1
  · exact (read_hit_colder_tier_promotes_and_swallows gobLenApprox 5
      (⟨⟨[], 10, 0⟩, ⟨[("k", ⟨"k", [7,7], 2, 0, 3⟩)], 20, 2⟩, ⟨[]⟩, 0, 0⟩ :
        MultiTierCache) "k"
      ⟨"k", [7,7], 2, 0, 3⟩ rfl (fun p hp => absurd hp (List.not_mem_nil p))
      (by decide) (Or.inl rfl)).2.2.2
      ⟨rfl, List.nodup_nil, fun p hp => absurd hp (List.not_mem_nil p)⟩
      (fun p hp => absurd hp (List.not_mem_nil p)) (by decide)

/-- Claim C10: the simulated remote `Get` wraps the stored raw value in an
entry whose `Size`, `LastAccess` and `Frequency` keep their Go zero
values regardless of the value's length; consequently a coordinator `get`
that hits the remote tier installs into the fast tier an entry of size 0
— charged 0 bytes, the fast tier's usage is unchanged — while the colder
tiers are untouched. -/
theorem remote_get_zero_size_and_free_promotion
    (gobLen : CacheEntry → Int) (now : Int) (c : MultiTierCache) (k : String)
    (v : List Nat)
    (hm : c.memoryStore.get k = none)
    (hd : c.diskStore.get k = none)
    (hr : lookupKey c.remoteStore.simulateMap k = some v)
    (hcap : c.memoryStore.usage ≤ c.memoryStore.capacity) :
    (∀ (s : RemoteStore) (key : String) (val : List Nat),
      lookupKey s.simulateMap key = some val →
      s.get key = some ⟨key, val, 0, 0, 0⟩) ∧
    (c.get gobLen now k).2 = some v ∧
    (c.get gobLen now k).1.memoryStore.get k = some ⟨k, v, 0, now, 1⟩ ∧
    (c.get gobLen now k).1.memoryStore.usage = c.memoryStore.usage ∧
    (c.get gobLen now k).1.diskStore = c.diskStore ∧
    (c.get gobLen now k).1.remoteStore = c.remoteStore := by
  have hzero : ∀ (s : RemoteStore) (key : String) (val : List Nat),
      lookupKey s.simulateMap key = some val →
      s.get key = some ⟨key, val, 0, 0, 0⟩ := by
    intro s key val h
    unfold RemoteStore.get
    rw [h]
    rfl
  have hrget : c.remoteStore.get k = some ⟨k, v, 0, 0, 0⟩ := hzero _ _ _ hr
  have hget : c.get gobLen now k =
      (MultiTierCache.promoteToMemory gobLen now
        { c with statsHits := c.statsHits + 1 } (touch now ⟨k, v, 0, 0, 0⟩),
        some v) := by
    unfold MultiTierCache.get
    rw [hm, hd, hrget]
    rfl
  have hno : ¬ ({ c with statsHits := c.statsHits + 1 } :
      MultiTierCache).memoryStore.usage + (touch now ⟨k, v, 0, 0, 0⟩).size >
      ({ c with statsHits := c.statsHits + 1 } : MultiTierCache).memoryStore.capacity := by
    show ¬ c.memoryStore.usage + (0 : Int) > c.memoryStore.capacity
    omega
  have hpro : MultiTierCache.promoteToMemory gobLen now
      { c with statsHits := c.statsHits + 1 } (touch now ⟨k, v, 0, 0, 0⟩) =
      MultiTierCache.promoteWrite { c with statsHits := c.statsHits + 1 }
        (touch now ⟨k, v, 0, 0, 0⟩) := by
    unfold MultiTierCache.promoteToMemory
    rw [if_neg hno]
  have habs : ({ c with statsHits := c.statsHits + 1 } :
      MultiTierCache).memoryStore.get (touch now ⟨k, v, 0, 0, 0⟩).key = none := hm
  have hok : ¬ ({ c with statsHits := c.statsHits + 1 } :
      MultiTierCache).memoryStore.newUsageFor (touch now ⟨k, v, 0, 0, 0⟩) >
      ({ c with statsHits := c.statsHits + 1 } : MultiTierCache).memoryStore.capacity := by
    rw [MemoryStore.newUsageFor_of_absent _ _ habs]
    show ¬ c.memoryStore.usage + (0 : Int) > c.memoryStore.capacity
    omega
  refine ⟨hzero, ?_, ?_, ?_, ?_, ?_⟩
  · rw [hget]
  · rw [hget, hpro]
    unfold MultiTierCache.promoteWrite
    rw [memStore_set_of_le _ _ hok]
    exact lookupKey_putKey_self _ _ _
  · rw [hget, hpro]
    unfold MultiTierCache.promoteWrite
    rw [memStore_set_of_le _ _ hok]
    show ({ c with statsHits := c.statsHits + 1 } :
        MultiTierCache).memoryStore.newUsageFor (touch now ⟨k, v, 0, 0, 0⟩) =
      c.memoryStore.usage
    rw [MemoryStore.newUsageFor_of_absent _ _ habs]
    show c.memoryStore.usage + (0 : Int) = c.memoryStore.usage
    omega
  · rw [hget, hpro]
    rfl
  · rw [hget, hpro]
    rfl

/-- Witness for C10 on a concrete remote-resident key. -/
theorem remote_get_zero_size_and_free_promotion_witness :
    lookupKey (⟨⟨[], 10, 0⟩, ⟨[], 20, 0⟩, ⟨[("k", [3,3,3])]⟩, 0, 0⟩ :
        MultiTierCache).remoteStore.simulateMap "k" = some [3,3,3] ∧
    ((⟨⟨[], 10, 0⟩, ⟨[], 20, 0⟩, ⟨[("k", [3,3,3])]⟩, 0, 0⟩ :
        MultiTierCache).get gobLenApprox 7 "k").2 = some [3,3,3] ∧
    ((⟨⟨[], 10, 0⟩, ⟨[], 20, 0⟩, ⟨[("k", [3,3,3])]⟩, 0, 0⟩ :
        MultiTierCache).get gobLenApprox 7 "k").1.memoryStore.get "k" =
      some ⟨"k", [3,3,3], 0, 7, 1⟩ ∧
    ((⟨⟨[], 10, 0⟩, ⟨[], 20, 0⟩, ⟨[("k", [3,3,3])]⟩, 0, 0⟩ :
        MultiTierCache).get gobLenApprox 7 "k").1.memoryStore.usage = 0 := by
  have h := remote_get_zero_size_and_free_promotion gobLenApprox 7
    (⟨⟨[], 10, 0⟩, ⟨[], 20, 0⟩, ⟨[("k", [3,3,3])]⟩, 0, 0⟩ : MultiTierCache)
    "k" [3,3,3] rfl rfl rfl (by decide)
  exact ⟨rfl, h.2.1, h.2.2.1, h.2.2.2.1⟩

end GoCache
